import Mathlib

/-!
Verification of the bitcore threshold-signing session coordinator
(packages/bitcore-tss/ecdsa/sign.js, class Sign) and of the dogecoin
chain-parameter registry (packages/bitcore-lib-doge/lib/networks.js).

The JavaScript is embedded shallowly:
  * strings are lists of characters (List Char), Buffers are lists of
    byte values (List Nat, a value below 256);
  * machine numbers that the source keeps as JavaScript numbers and
    feeds through parseInt are Int;
  * a JavaScript assert that throws becomes Except.error, so a function
    that can throw returns Except String;
  * external collaborators whose code is not part of this repository's
    files (the `@bitgo/sdk-lib-mpc` engine, the DklsComms secure channel,
    the encrypt/decrypt utilities) are modelled from the specification's
    interface description: each such definition carries a doc comment
    that starts with `Modelled from the spec:`.
All definitions are computable so that concrete runs are decided by the
kernel (`decide`).
-/

deriving instance DecidableEq for Except

/-! ## Decimal printing and parsing (JavaScript number-to-string and parseInt) -/

/-- The ten decimal digit characters. -/
def decDigits : List Char := ['0', '1', '2', '3', '4', '5', '6', '7', '8', '9']

/-- The character of one decimal digit. -/
def digitChar (d : Nat) : Char := decDigits.getD d '0'

/-- Numeric value of a decimal digit character. -/
def digitVal (c : Char) : Nat := c.toNat - 48

/-- Fuel-indexed decimal printer; with fuel above n it prints n in base 10.
The fuel keeps the recursion structural, so the kernel can evaluate it. -/
def natCharsAux : Nat → Nat → List Char
  | 0, _ => []
  | fuel + 1, n =>
    if n < 10 then [digitChar n]
    else natCharsAux fuel (n / 10) ++ [digitChar (n % 10)]

/-- Decimal representation of a natural number, as JavaScript String(n). -/
def natChars (n : Nat) : List Char := natCharsAux (n + 1) n

/-- Decimal representation of an integer, as JavaScript String(i). -/
def intChars (i : Int) : List Char :=
  if i < 0 then '-' :: natChars i.natAbs else natChars i.toNat

/-- Leading-digit natural-number parse: the digits JavaScript parseInt
consumes, none when the text does not start with a digit (NaN). -/
def parseNatPrefix (l : List Char) : Option Nat :=
  let ds := l.takeWhile Char.isDigit
  if ds.isEmpty then none
  else some (ds.foldl (fun a c => 10 * a + digitVal c) 0)

/-- JavaScript parseInt on the strings this model feeds it: an optional
leading minus sign, then leading digits; none models NaN. -/
def parseIntJs (l : List Char) : Option Int :=
  if l.head? = some '-' then (parseNatPrefix l.tail).map (fun n => -(n : Int))
  else (parseNatPrefix l).map (fun n => (n : Int))

/-- Split a character list at every colon, as String.prototype.split(':'). -/
def splitCh : List Char → List (List Char)
  | [] => [[]]
  | c :: rest =>
    if c = ':' then [] :: splitCh rest
    else (c :: (splitCh rest).headD []) :: (splitCh rest).tail

/-! ## Base64 (Buffer.toString('base64') and Buffer.from(s, 'base64')) -/

/-- The base64 alphabet. -/
def b64Alphabet : List Char :=
  ['A', 'B', 'C', 'D', 'E', 'F', 'G', 'H', 'I', 'J', 'K', 'L', 'M',
   'N', 'O', 'P', 'Q', 'R', 'S', 'T', 'U', 'V', 'W', 'X', 'Y', 'Z',
   'a', 'b', 'c', 'd', 'e', 'f', 'g', 'h', 'i', 'j', 'k', 'l', 'm',
   'n', 'o', 'p', 'q', 'r', 's', 't', 'u', 'v', 'w', 'x', 'y', 'z',
   '0', '1', '2', '3', '4', '5', '6', '7', '8', '9', '+', '/']

/-- The base64 character of a 6-bit value. -/
def b64Char (n : Nat) : Char := b64Alphabet.getD n 'A'

/-- The 6-bit value of a base64 character (64 when not in the alphabet). -/
def b64Val (c : Char) : Nat := b64Alphabet.findIdx (fun x => x == c)

/-- Base64 encoding of a byte list, with padding. -/
def b64encode : List Nat → List Char
  | [] => []
  | [a] => [b64Char (a / 4), b64Char (a % 4 * 16), '=', '=']
  | [a, b] => [b64Char (a / 4), b64Char (a % 4 * 16 + b / 16), b64Char (b % 16 * 4), '=']
  | a :: b :: c :: rest =>
    b64Char (a / 4) :: b64Char (a % 4 * 16 + b / 16) ::
      b64Char (b % 16 * 4 + c / 64) :: b64Char (c % 64) :: b64encode rest

/-- Base64 decoding of well-formed base64 text (incomplete trailing chunks
decode to nothing, as Buffer.from(s, 'base64') drops spare bits). -/
def b64decode : List Char → List Nat
  | c1 :: c2 :: c3 :: c4 :: rest =>
    if c3 = '=' then [b64Val c1 * 4 + b64Val c2 / 16]
    else if c4 = '=' then
      [b64Val c1 * 4 + b64Val c2 / 16, b64Val c2 % 16 * 16 + b64Val c3 / 4]
    else
      (b64Val c1 * 4 + b64Val c2 / 16) :: (b64Val c2 % 16 * 16 + b64Val c3 / 4) ::
        (b64Val c3 % 4 * 64 + b64Val c4) :: b64decode rest
  | _ => []

/-! ### Lemmas about the printers, parsers and base64 -/

theorem b64Val_b64Char : ∀ n < 64, b64Val (b64Char n) = n := by decide

theorem b64Char_ne_pad (n : Nat) : b64Char n ≠ '=' := by
  by_cases h : n < 64
  · revert h
    revert n
    decide
  · unfold b64Char
    rw [List.getD_eq_default]
    · decide
    · simp only [b64Alphabet, List.length]
      omega

theorem b64Char_ne_colon (n : Nat) : b64Char n ≠ ':' := by
  by_cases h : n < 64
  · revert h
    revert n
    decide
  · unfold b64Char
    rw [List.getD_eq_default]
    · decide
    · simp only [b64Alphabet, List.length]
      omega

theorem b64decode_b64encode : ∀ (l : List Nat), (∀ x ∈ l, x < 256) →
    b64decode (b64encode l) = l
  | [], _ => rfl
  | [a], h => by
    have ha : a < 256 := h a (by simp)
    rw [b64encode, b64decode, if_pos rfl,
      b64Val_b64Char (a / 4) (by omega), b64Val_b64Char (a % 4 * 16) (by omega)]
    congr 1
    omega
  | [a, b], h => by
    have ha : a < 256 := h a (by simp)
    have hb : b < 256 := h b (by simp)
    rw [b64encode, b64decode, if_neg (b64Char_ne_pad _), if_pos rfl,
      b64Val_b64Char (a / 4) (by omega), b64Val_b64Char (a % 4 * 16 + b / 16) (by omega),
      b64Val_b64Char (b % 16 * 4) (by omega)]
    congr 1
    · omega
    · congr 1
      omega
  | a :: b :: c :: rest, h => by
    have ha : a < 256 := h a (by simp)
    have hb : b < 256 := h b (by simp)
    have hc : c < 256 := h c (by simp)
    have ih := b64decode_b64encode rest (fun x hx => h x (by simp [hx]))
    rw [b64encode, b64decode, if_neg (b64Char_ne_pad _), if_neg (b64Char_ne_pad _),
      b64Val_b64Char (a / 4) (by omega), b64Val_b64Char (a % 4 * 16 + b / 16) (by omega),
      b64Val_b64Char (b % 16 * 4 + c / 64) (by omega), b64Val_b64Char (c % 64) (by omega), ih]
    congr 1
    · omega
    congr 1
    · omega
    congr 1
    omega

theorem b64encode_no_colon : ∀ (l : List Nat), ':' ∉ b64encode l
  | [] => by simp [b64encode]
  | [a] => by
    simp only [b64encode, List.mem_cons, List.not_mem_nil, or_false]
    push_neg
    refine ⟨(b64Char_ne_colon _).symm, (b64Char_ne_colon _).symm, by decide, by decide⟩
  | [a, b] => by
    simp only [b64encode, List.mem_cons, List.not_mem_nil, or_false]
    push_neg
    exact ⟨(b64Char_ne_colon _).symm, (b64Char_ne_colon _).symm,
      (b64Char_ne_colon _).symm, by decide⟩
  | a :: b :: c :: rest => by
    have ih := b64encode_no_colon rest
    simp only [b64encode, List.mem_cons]
    push_neg
    exact ⟨(b64Char_ne_colon _).symm, (b64Char_ne_colon _).symm,
      (b64Char_ne_colon _).symm, (b64Char_ne_colon _).symm, ih⟩

theorem digitChar_isDigit : ∀ d < 10, (digitChar d).isDigit = true := by decide

theorem digitVal_digitChar : ∀ d < 10, digitVal (digitChar d) = d := by decide

theorem natCharsAux_ne_nil : ∀ fuel n, 0 < fuel → natCharsAux fuel n ≠ []
  | fuel + 1, n, _ => by
    rw [natCharsAux]
    by_cases h : n < 10
    · simp [h]
    · simp [h]

theorem natCharsAux_digits : ∀ fuel n, n < fuel →
    ∀ c ∈ natCharsAux fuel n, c.isDigit = true
  | fuel + 1, n, hlt => by
    rw [natCharsAux]
    by_cases h : n < 10
    · simp only [if_pos h, List.mem_singleton]
      rintro c rfl
      exact digitChar_isDigit n h
    · simp only [if_neg h, List.mem_append, List.mem_singleton]
      have hd : n / 10 < fuel := by
        have := Nat.div_lt_self (by omega : 0 < n) (by omega : 1 < 10)
        omega
      rintro c (hch | rfl)
      · exact natCharsAux_digits fuel (n / 10) hd c hch
      · exact digitChar_isDigit (n % 10) (by omega)

theorem natCharsAux_foldl : ∀ fuel n acc, n < fuel →
    (natCharsAux fuel n).foldl (fun a c => 10 * a + digitVal c) acc
      = acc * 10 ^ (natCharsAux fuel n).length + n
  | fuel + 1, n, acc, hlt => by
    rw [natCharsAux]
    by_cases h : n < 10
    · simp only [if_pos h, List.foldl_cons, List.foldl_nil, List.length_singleton,
        pow_one, digitVal_digitChar n h]
      omega
    · have hd : n / 10 < fuel := by
        have := Nat.div_lt_self (by omega : 0 < n) (by omega : 1 < 10)
        omega
      have ih := natCharsAux_foldl fuel (n / 10) acc hd
      simp only [if_neg h, List.foldl_append, List.foldl_cons, List.foldl_nil, ih,
        List.length_append, List.length_singleton, digitVal_digitChar (n % 10) (by omega)]
      have hmod : 10 * (n / 10) + n % 10 = n := Nat.div_add_mod n 10
      rw [pow_succ]
      calc 10 * (acc * 10 ^ (natCharsAux fuel (n / 10)).length + n / 10) + n % 10
          = acc * (10 ^ (natCharsAux fuel (n / 10)).length * 10) + (10 * (n / 10) + n % 10) := by
            ring
        _ = acc * (10 ^ (natCharsAux fuel (n / 10)).length * 10) + n := by rw [hmod]

theorem takeWhile_of_all (p : Char → Bool) :
    ∀ l : List Char, (∀ c ∈ l, p c = true) → l.takeWhile p = l
  | [], _ => rfl
  | c :: rest, h => by
    rw [List.takeWhile_cons, if_pos (h c (by simp)),
      takeWhile_of_all p rest (fun x hx => h x (by simp [hx]))]

theorem parseNatPrefix_natChars (n : Nat) : parseNatPrefix (natChars n) = some n := by
  unfold parseNatPrefix natChars
  rw [takeWhile_of_all _ _ (natCharsAux_digits (n + 1) n (by omega))]
  rw [if_neg (by simpa [List.isEmpty_iff] using natCharsAux_ne_nil (n + 1) n (by omega))]
  rw [natCharsAux_foldl (n + 1) n 0 (by omega)]
  simp

theorem natChars_head_digit (n : Nat) :
    ∃ c, (natChars n).head? = some c ∧ c.isDigit = true := by
  unfold natChars
  rcases hne : natCharsAux (n + 1) n with _ | ⟨c, rest⟩
  · exact absurd hne (natCharsAux_ne_nil (n + 1) n (by omega))
  · refine ⟨c, by simp, ?_⟩
    have := natCharsAux_digits (n + 1) n (by omega) c
    rw [hne] at this
    exact this (by simp)

theorem parseIntJs_natChars (n : Nat) : parseIntJs (natChars n) = some (n : Int) := by
  obtain ⟨c, hc, hdig⟩ := natChars_head_digit n
  unfold parseIntJs
  rw [if_neg, parseNatPrefix_natChars]
  · rfl
  · rw [hc]
    intro hcontra
    have : c = '-' := by simpa using hcontra
    subst this
    exact absurd hdig (by decide)

theorem intChars_of_nonneg (i : Int) (h : 0 ≤ i) : intChars i = natChars i.toNat := by
  unfold intChars
  rw [if_neg (by omega)]

theorem parseIntJs_intChars (i : Int) (h : 0 ≤ i) : parseIntJs (intChars i) = some i := by
  rw [intChars_of_nonneg i h, parseIntJs_natChars, Int.toNat_of_nonneg h]

theorem natChars_no_colon (n : Nat) : ':' ∉ natChars n := by
  intro hmem
  have := natCharsAux_digits (n + 1) n (by omega) ':' hmem
  exact absurd this (by decide)

theorem intChars_no_colon (i : Int) (h : 0 ≤ i) : ':' ∉ intChars i := by
  rw [intChars_of_nonneg i h]
  exact natChars_no_colon i.toNat

theorem splitCh_ne_nil : ∀ l : List Char, splitCh l ≠ []
  | [] => by simp [splitCh]
  | c :: rest => by
    rw [splitCh]
    by_cases h : c = ':' <;> simp [h]

theorem splitCh_no_colon : ∀ l : List Char, ':' ∉ l → splitCh l = [l]
  | [], _ => rfl
  | c :: rest, h => by
    have hc : c ≠ ':' := fun hh => h (by simp [hh])
    have ih := splitCh_no_colon rest (fun hh => h (by simp [hh]))
    rw [splitCh, if_neg hc, ih]
    rfl

theorem splitCh_append : ∀ a r : List Char, ':' ∉ a →
    splitCh (a ++ ':' :: r) = a :: splitCh r
  | [], r, _ => by rw [List.nil_append, splitCh, if_pos rfl]
  | c :: rest, r, h => by
    have hc : c ≠ ':' := fun hh => h (by simp [hh])
    have ih := splitCh_append rest r (fun hh => h (by simp [hh]))
    rw [List.cons_append, splitCh, if_neg hc, ih]
    rfl

/-! ## The threshold-signing session (packages/bitcore-tss/ecdsa/sign.js)

The class `Sign` holds private fields #keychain, #partyId, #partySize,
#minSigners, #derivationPath, #messageHash, #round, #authKey, #dsg and
#signature. Mutation happens only inside the methods, so the embedding
passes the state explicitly: a method that mutates returns the new state. -/

/-- The key-share artifact the key-generation protocol produced
(params.keychain: privateKeyShare and commonKeyChain Buffers). -/
structure Keychain where
  privateKeyShare : List Nat
  commonKeyChain : List Nat
deriving DecidableEq

/-- Buffer.isBuffer for this embedding: a byte list is a Buffer exactly when
every entry is a byte value. -/
def isBuffer (l : List Nat) : Bool := l.all (fun b => b < 256)

/-- Modelled from the spec: the public key derived from an identity private
key (bitcoreLib.PrivateKey(...).publicKey), kept opaque as a number. -/
def pubKeyOf (k : Nat) : Nat := k

/-- Modelled from the spec: the external SigningEngine's per-participant
state (DklsDsg.Dsg of `@bitgo/sdk-lib-mpc`, out of scope per the spec).
Only its interface matters here: init, handleIncomingMessages, a signature
readable after the last round, and snapshot/hydrate bytes. -/
structure DsgState where
  keyShare : List Nat
  dsgPartyId : Int
  dsgPath : List Char
  dsgMessageHash : List Nat
  sessionBytes : List Nat
deriving DecidableEq

/-- Modelled from the spec: Dsg construction for a participant, share,
derivation path and message hash. -/
def mkDsg (keyShare : List Nat) (partyId : Int) (path : List Char)
    (messageHash : List Nat) : DsgState :=
  { keyShare := keyShare, dsgPartyId := partyId, dsgPath := path,
    dsgMessageHash := messageHash, sessionBytes := [] }

/-- A serialized protocol payload: opaque p2p and broadcast message bodies. -/
structure RawPayload where
  p2pMessages : List (List Nat)
  broadcastMessages : List (List Nat)
deriving DecidableEq

/-- Modelled from the spec: the engine's initialization step. It returns the
first-round broadcast message and advances the engine's opaque state. -/
def DsgState.init (d : DsgState) : DsgState × List Nat :=
  ({ d with sessionBytes := d.sessionBytes ++ [0] }, [0])

/-- Modelled from the spec: the engine's incoming-message handler. It absorbs
the previous round's payloads and produces this participant's next message,
advancing the opaque engine state. -/
def DsgState.handleIncomingMessages (d : DsgState) (incoming : List RawPayload) :
    DsgState × RawPayload :=
  ({ d with sessionBytes := d.sessionBytes ++ [incoming.length % 256] },
   { p2pMessages := [[d.sessionBytes.length % 256]], broadcastMessages := [[1]] })

/-- Modelled from the spec: the engine's raw signature, readable once the
rounds are over (this.#dsg.signature). -/
def DsgState.rawSignature (d : DsgState) : List Nat := d.sessionBytes

/-- Modelled from the spec: hydrate the engine from snapshot bytes
(dsg.setSession). -/
def DsgState.setSession (d : DsgState) (bytes : List Nat) : DsgState :=
  { d with sessionBytes := bytes }

/-- An encrypted-and-authenticated protocol message as the secure channel
produces it: recipient key (none for a broadcast), sender key, opaque body. -/
structure AuthMsg where
  toKey : Option Nat
  fromKey : Nat
  body : List Nat
deriving DecidableEq

/-- The wire envelope of sign.js _formatMessage:
round, partyId, publicKey, p2pMessages, broadcastMessages. -/
structure Envelope where
  round : Int
  partyId : Int
  publicKey : Nat
  p2pMessages : List AuthMsg
  broadcastMessages : List AuthMsg
deriving DecidableEq

/-- The encrypted payload pair DklsComms returns. -/
structure SignedPayload where
  p2pMessages : List AuthMsg
  broadcastMessages : List AuthMsg
deriving DecidableEq

/-- Modelled from the spec: MessageCodec serialization of a broadcast
message (DklsTypes.serializeBroadcastMessage), an opaque passthrough codec. -/
def serializeBroadcastMessage (m : List Nat) : List Nat := m

/-- Modelled from the spec: MessageCodec serialization of a round payload
(DklsTypes.serializeMessages), an opaque passthrough codec. -/
def serializeMessages (p : RawPayload) : RawPayload := p

/-- Modelled from the spec: MessageCodec deserialization of round payloads
(DklsTypes.deserializeMessages), an opaque passthrough codec. -/
def deserializeMessages (ps : List RawPayload) : List RawPayload := ps

/-- Modelled from the spec: SecureChannel encryption of outgoing payloads
(DklsComms.encryptAndAuthOutgoingMessages, ecdsa/dklsComms.js, not under
src/): every p2p body is encrypted to one recipient's public key and every
message is authenticated by the sender's key. -/
def encryptAndAuthOutgoingMessages (payload : RawPayload)
    (recipients : List (Int × Nat)) (key : Nat) : SignedPayload :=
  { p2pMessages := recipients.map (fun pk =>
      { toKey := some pk.2, fromKey := pubKeyOf key,
        body := payload.p2pMessages.foldl (fun a b => a ++ b) [] }),
    broadcastMessages := payload.broadcastMessages.map (fun b =>
      { toKey := none, fromKey := pubKeyOf key, body := b }) }

/-- Modelled from the spec: SecureChannel decryption and authenticity check
of incoming envelopes (DklsComms.decryptAndVerifyIncomingMessages): a p2p
message not encrypted to this participant's key, or any message whose sender
key differs from the envelope's advertised key, is fatal. -/
def decryptAndVerifyIncomingMessages (msgs : List Envelope) (key : Nat) :
    Except String (List RawPayload) :=
  if ∀ mm ∈ msgs, (∀ am ∈ mm.p2pMessages, am.toKey = some (pubKeyOf key) ∧ am.fromKey = mm.publicKey)
      ∧ (∀ am ∈ mm.broadcastMessages, am.fromKey = mm.publicKey) then
    Except.ok (msgs.map (fun mm =>
      { p2pMessages := mm.p2pMessages.map AuthMsg.body,
        broadcastMessages := mm.broadcastMessages.map AuthMsg.body }))
  else Except.error ("Failed to verify the authenticity of the incoming messages")

/-- An authenticated-encryption envelope as utils.js encrypt returns it. -/
structure Ciphertext where
  encKey : Nat
  payload : List Char
deriving DecidableEq

/-- Modelled from the spec: SecureChannel authenticated encryption to a
recipient public key (ecdsa/utils.js encrypt, not under src/). -/
def encrypt (payload : List Char) (toKey : Nat) (_fromKey : Nat) : Ciphertext :=
  { encKey := toKey, payload := payload }

/-- Modelled from the spec: SecureChannel authenticated decryption
(ecdsa/utils.js decrypt, not under src/): only the intended recipient's key
opens the envelope; any other key is a fatal CryptoError. -/
def decrypt (ct : Ciphertext) (toKey : Nat) (_fromKey : Nat) : Except String (List Char) :=
  if ct.encKey = toKey then Except.ok ct.payload
  else Except.error ("Could not decrypt the message")

/-- The converted signature object getSignature returns:
{r, s, v, pubKey} with 0x-prefixed hex scalars (v is none when the
recovery-parameter text did not parse, JavaScript NaN). -/
structure SignatureObj where
  r : List Char
  s : List Char
  v : Option Int
  pubKey : List Char
deriving DecidableEq

/-- A hex digit character. -/
def hexDigit (d : Nat) : Char :=
  if d < 10 then digitChar d else (['a', 'b', 'c', 'd', 'e', 'f']).getD (d - 10) 'a'

/-- Hex encoding of a byte list (Buffer.toString('hex')). -/
def bytesToHex (l : List Nat) : List Char :=
  l.foldr (fun b acc => hexDigit (b / 16) :: hexDigit (b % 16) :: acc) []

/-- Modelled from the spec: the SignatureAssembler
(DklsUtils.verifyAndConvertDklsSignature of `@bitgo/sdk-lib-mpc`): converts
the engine's raw signature into "recoveryParam:R:S:pubKey" text after
verifying it against the message hash, the common key chain and the
derivation path. The model's conversion is an opaque deterministic function
of those inputs; its verification is modelled as passing for the engine's
own round-5 signature. -/
def verifyAndConvertDklsSignature (messageHash rawSig : List Nat)
    (commonKeyChainHex : List Char) (path : List Char) : Except String (List Char) :=
  Except.ok (natChars 0 ++ ':' :: bytesToHex rawSig ++ ':' :: bytesToHex messageHash
    ++ ':' :: commonKeyChainHex ++ path)

/-- The signing-session state: the private fields of class Sign. -/
structure Sign where
  keychain : Keychain
  partyId : Int
  partySize : Int
  minSigners : Int
  derivationPath : List Char
  messageHash : List Nat
  round : Int
  authKey : Nat
  dsg : DsgState
  signature : Option SignatureObj
deriving DecidableEq

/-- The constructor's parameter object; none is an absent (or null)
property. -/
structure SignParams where
  keychain : Option Keychain
  partyId : Option Int
  n : Option Int
  m : Option Int
  derivationPath : Option (List Char)
  messageHash : Option (List Nat)
  authKey : Option Nat
  round : Option Int

/-- The constructor's derivationPath assert:
derivationPath == null || (typeof derivationPath === 'string' &&
derivationPath.startsWith('m')). -/
def pathOk : Option (List Char) → Bool
  | none => true
  | some dp => dp.head? == some 'm'

/-- The constructor's round assert: round == null || (round >= 0 && round <= 5). -/
def roundOk : Option Int → Bool
  | none => true
  | some r => decide (0 ≤ r ∧ r ≤ 5)

/-- The constructor of class Sign (sign.js lines 33-67): each JavaScript
assert that fails becomes the corresponding error. `parseInt(round) || 0`
on an in-range integer or null collapses to `round.getD 0`. The authKey
recognizability assert is modelled from the spec as passing for the opaque
numeric identity keys of this embedding. -/
def createSign (p : SignParams) : Except String Sign :=
  match p.keychain with
  | none => Except.error ("keychain is required")
  | some keychain =>
  match p.partyId with
  | none => Except.error ("partyId is required")
  | some partyId =>
  match p.n with
  | none => Except.error ("n is required")
  | some n =>
  match p.m with
  | none => Except.error ("m is required")
  | some m =>
  match p.messageHash with
  | none => Except.error ("messageHash is required")
  | some messageHash =>
  match p.authKey with
  | none => Except.error ("authKey is required")
  | some authKey =>
  if isBuffer keychain.privateKeyShare = false then
    Except.error ("keychain.privateKeyShare must be a buffer")
  else if isBuffer keychain.commonKeyChain = false then
    Except.error ("keychain.commonKeyChain must be a buffer")
  else if ¬ (0 ≤ partyId ∧ partyId < n) then
    Except.error ("partyId must be in the range [0, n-1]")
  else if ¬ (1 < n) then
    Except.error ("n must be at least 2")
  else if ¬ (0 < m ∧ m ≤ n) then
    Except.error ("m must be in the range [1, n]")
  else if pathOk p.derivationPath = false then
    Except.error ("derivationPath must be a string starting with m")
  else if ¬ (isBuffer messageHash = true ∧ messageHash.length = 32) then
    Except.error ("messageHash must be a 32 byte buffer")
  else if roundOk p.round = false then
    Except.error ("round must be in the range [0, 5]")
  else
    Except.ok
      { keychain := keychain
        partyId := partyId
        partySize := n
        minSigners := m
        derivationPath := (p.derivationPath.getD ['m'])
        messageHash := messageHash
        round := (p.round.getD 0)
        authKey := authKey
        dsg := mkDsg keychain.privateKeyShare partyId (p.derivationPath.getD ['m']) messageHash
        signature := none }

/-- isSignatureReady (sign.js lines 191-193): round === 5. -/
def Sign.isSignatureReady (s : Sign) : Bool := s.round == 5

/-- _formatMessage (sign.js lines 130-138): the envelope carries the
pre-increment round (round++), then the session's round advances by one. -/
def Sign.formatMessage (s : Sign) (sm : SignedPayload) : Sign × Envelope :=
  ({ s with round := s.round + 1 },
   { round := s.round, partyId := s.partyId, publicKey := pubKeyOf s.authKey,
     p2pMessages := sm.p2pMessages, broadcastMessages := sm.broadcastMessages })

/-- initJoin (sign.js lines 144-155). -/
def Sign.initJoin (s : Sign) : Except String (Sign × Envelope) :=
  if s.round ≠ 0 then Except.error ("initJoin must be called before the rounds")
  else
    let r := s.dsg.init
    let serializedMsg := serializeBroadcastMessage r.2
    let signedMessage := encryptAndAuthOutgoingMessages
      { p2pMessages := [], broadcastMessages := [serializedMsg] } [] s.authKey
    Except.ok (Sign.formatMessage { s with dsg := r.1 } signedMessage)

/-- nextRound (sign.js lines 163-185): the validation asserts in source
order, then decrypt, engine step, re-encrypt and _formatMessage. The
Array.isArray assert is subsumed by the embedding's List type. -/
def Sign.nextRound (s : Sign) (prevRoundMessages : List Envelope) :
    Except String (Sign × Envelope) :=
  if s.round ≤ 0 then
    Except.error ("initJoin must be called before participating in the rounds")
  else if 5 ≤ s.round then
    Except.error ("Signing rounds are over")
  else if (prevRoundMessages.length : Int) ≠ s.minSigners - 1 then
    Except.error ("Not ready to proceed to the next round")
  else if ¬ (∀ e ∈ prevRoundMessages, e.round = s.round - 1) then
    Except.error ("All messages must be from the previous round")
  else if ¬ (∀ e ∈ prevRoundMessages, e.partyId ≠ s.partyId) then
    Except.error ("Messages must not be from the yourself")
  else
    match decryptAndVerifyIncomingMessages prevRoundMessages s.authKey with
    | Except.error e => Except.error e
    | Except.ok prevRndRaw =>
      let prevRndMsg := deserializeMessages prevRndRaw
      let hr := s.dsg.handleIncomingMessages prevRndMsg
      let thisRoundMessage := serializeMessages hr.2
      let partyPubKeys := prevRoundMessages.map (fun mm => (mm.partyId, mm.publicKey))
      let signedMessage := encryptAndAuthOutgoingMessages thisRoundMessage partyPubKeys s.authKey
      Except.ok (Sign.formatMessage { s with dsg := hr.1 } signedMessage)

/-- The session state after a nextRound call, whether it succeeded or threw:
a JavaScript throw leaves the object as it was. -/
def Sign.afterNextRound (s : Sign) (msgs : List Envelope) : Sign :=
  match s.nextRound msgs with
  | Except.ok (s2, _) => s2
  | Except.error _ => s

/-- getSignature (sign.js lines 199-225): requires isSignatureReady, returns
the cached object if present, otherwise converts the engine's raw signature,
splits "recoveryParam:R:S:pubKey" and caches {r, s, v, pubKey}. -/
def Sign.getSignature (s : Sign) : Except String (Sign × SignatureObj) :=
  if s.isSignatureReady = false then Except.error ("Signature not ready")
  else
    match s.signature with
    | some sig => Except.ok (s, sig)
    | none =>
      match verifyAndConvertDklsSignature s.messageHash s.dsg.rawSignature
          (bytesToHex s.keychain.commonKeyChain) s.derivationPath with
      | Except.error e => Except.error e
      | Except.ok converted =>
        let parts := splitCh converted
        let sig : SignatureObj :=
          { r := '0' :: 'x' :: parts.getD 1 []
            s := '0' :: 'x' :: parts.getD 2 []
            v := parseIntJs (parts.getD 0 [])
            pubKey := parts.getD 3 [] }
        Except.ok ({ s with signature := some sig }, sig)

/-- export (sign.js lines 73-87; `export` is a Lean keyword, hence the
name): requires an in-flight session, serializes the colon-delimited record
round:partySize:minSigners:partyId:derivationPath:sessionBytes(base64):
messageHash(base64) and encrypts it to self. -/
def Sign.exportSession (s : Sign) : Except String Ciphertext :=
  if s.round ≤ 0 then
    Except.error ("Cannot export a session that has not started")
  else if s.isSignatureReady = true then
    Except.error ("Cannot export a completed session. The signature is ready with getSignature()")
  else
    let payload := intChars s.round
      ++ ':' :: (intChars s.partySize
      ++ ':' :: (intChars s.minSigners
      ++ ':' :: (intChars s.partyId
      ++ ':' :: (s.derivationPath
      ++ ':' :: (b64encode s.dsg.sessionBytes
      ++ ':' :: b64encode s.messageHash)))))
    Except.ok (encrypt payload (pubKeyOf s.authKey) s.authKey)

/-- restore (sign.js lines 97-122): decrypt with the caller's identity key,
split the record at colons, take the first seven fields, rebuild the session
through the constructor and hydrate the engine snapshot. In the source a
field parseInt returns NaN on flows into the constructor, whose range
asserts all fail on NaN; the model raises that failure at the parse (the
error text of the first failing assert can differ, the ok/error behavior
agrees). Fewer than seven fields make Buffer.from(undefined) throw before
the constructor runs. -/
def Sign.restore (session : Ciphertext) (keychain : Keychain) (authKey : Nat) :
    Except String Sign :=
  match decrypt session (pubKeyOf authKey) authKey with
  | Except.error e => Except.error e
  | Except.ok payload =>
    let parts := splitCh payload
    if parts.length < 7 then Except.error ("TypeError: argument must not be undefined")
    else
      match parseIntJs (parts.getD 0 []) with
      | none => Except.error ("round must be in the range [0, 5]")
      | some round =>
      match parseIntJs (parts.getD 1 []) with
      | none => Except.error ("n must be at least 2")
      | some partySize =>
      match parseIntJs (parts.getD 2 []) with
      | none => Except.error ("m must be in the range [1, n]")
      | some minSigners =>
      match parseIntJs (parts.getD 3 []) with
      | none => Except.error ("partyId must be in the range [0, n-1]")
      | some partyId =>
      match createSign
        { keychain := some keychain
          partyId := some partyId
          n := some partySize
          m := some minSigners
          derivationPath := some (parts.getD 4 [])
          messageHash := some (b64decode (parts.getD 6 []))
          authKey := some authKey
          round := some round } with
      | Except.error e => Except.error e
      | Except.ok signer =>
        Except.ok { signer with dsg := signer.dsg.setSession (b64decode (parts.getD 5 [])) }

/-- The construction invariant: what the constructor's asserts guarantee of
every session it returns (and every session restore returns). -/
def Sign.Valid (s : Sign) : Prop :=
  isBuffer s.keychain.privateKeyShare = true
  ∧ isBuffer s.keychain.commonKeyChain = true
  ∧ 0 ≤ s.partyId ∧ s.partyId < s.partySize
  ∧ 1 < s.partySize
  ∧ 0 < s.minSigners ∧ s.minSigners ≤ s.partySize
  ∧ s.derivationPath.head? = some 'm'
  ∧ isBuffer s.messageHash = true ∧ s.messageHash.length = 32
  ∧ 0 ≤ s.round ∧ s.round ≤ 5

instance (s : Sign) : Decidable s.Valid := by
  unfold Sign.Valid
  infer_instance

/-! ### Concrete sessions used by the witnesses and counterexamples -/

/-- A sample keychain. -/
def sampleKeychain : Keychain := { privateKeyShare := [1, 2], commonKeyChain := [3, 4] }

/-- A 32-byte all-zero message hash. -/
def sampleHash : List Nat := List.replicate 32 0

/-- A freshly constructed session (partyId 0 of n = 3, m = 2, round 0), as
the constructor returns it for the sample inputs. -/
def session0 : Sign :=
  { keychain := sampleKeychain
    partyId := 0
    partySize := 3
    minSigners := 2
    derivationPath := ['m']
    messageHash := sampleHash
    round := 0
    authKey := 7
    dsg := mkDsg [1, 2] 0 ['m'] sampleHash
    signature := none }

/-- The sample session at round 1 (after initJoin, engine state included). -/
def sessionR1 : Sign :=
  { session0 with round := 1, dsg := { session0.dsg with sessionBytes := [0] } }

/-- The sample session at round 5 (construction with an explicit round). -/
def sessionR5 : Sign := { session0 with round := 5 }

/-- A well-formed peer envelope for sessionR1's nextRound: from party 1,
tagged with round 0, without any encrypted payloads. -/
def peerEnv : Envelope :=
  { round := 0, partyId := 1, publicKey := 9, p2pMessages := [], broadcastMessages := [] }

/-- The derived results of the sample runs: session0 after initJoin is
exactly sessionR1, with this envelope. -/
def initEnv0 : Envelope :=
  { round := 0, partyId := 0, publicKey := 7, p2pMessages := [],
    broadcastMessages := [{ toKey := none, fromKey := 7, body := [0] }] }

/-- sessionR1 after a successful nextRound with [peerEnv]. -/
def sessionR2 : Sign :=
  { sessionR1 with round := 2, dsg := { sessionR1.dsg with sessionBytes := [0, 1] } }

/-- The envelope that nextRound returns for sessionR1 and [peerEnv]. -/
def nextEnv1 : Envelope :=
  { round := 1, partyId := 0, publicKey := 7,
    p2pMessages := [{ toKey := some 9, fromKey := 7, body := [1] }],
    broadcastMessages := [{ toKey := none, fromKey := 7, body := [1] }] }

/-- The signature object getSignature assembles for sessionR5. -/
def sampleSig : SignatureObj :=
  { r := ['0', 'x'], s := '0' :: 'x' :: List.replicate 64 '0',
    v := some 0, pubKey := ['0', '3', '0', '4', 'm'] }

/-- sessionR5 with its signature cached. -/
def sessionR5Sig : Sign := { sessionR5 with signature := some sampleSig }

/-- A constructor-produced session whose derivationPath contains a colon
("m:m" starts with 'm', so the constructor accepts it), at round 1. -/
def colonSession : Sign :=
  { keychain := sampleKeychain
    partyId := 0
    partySize := 3
    minSigners := 2
    derivationPath := ['m', ':', 'm']
    messageHash := sampleHash
    round := 1
    authKey := 7
    dsg := mkDsg [1, 2] 0 ['m', ':', 'm'] sampleHash
    signature := none }

/-! ## Claims about the signing session -/

/-- C1: for every session and input to nextRound, an input whose length is
not minSigners - 1, or containing a message whose round field differs from
the session's round - 1, or containing a message whose partyId equals the
session's own, makes the call fail with the session's round counter
unchanged afterward. -/
theorem nextRound_rejects_invalid (s : Sign) (msgs : List Envelope)
    (h : (msgs.length : Int) ≠ s.minSigners - 1
       ∨ (∃ e ∈ msgs, e.round ≠ s.round - 1)
       ∨ (∃ e ∈ msgs, e.partyId = s.partyId)) :
    (∃ err, s.nextRound msgs = Except.error err)
      ∧ (s.afterNextRound msgs).round = s.round := by
  have herr : ∃ err, s.nextRound msgs = Except.error err := by
    unfold Sign.nextRound
    by_cases h1 : s.round ≤ 0
    · exact ⟨_, if_pos h1⟩
    rw [if_neg h1]
    by_cases h2 : 5 ≤ s.round
    · exact ⟨_, if_pos h2⟩
    rw [if_neg h2]
    by_cases h3 : (msgs.length : Int) ≠ s.minSigners - 1
    · exact ⟨_, if_pos h3⟩
    rw [if_neg h3]
    push_neg at h3
    by_cases h4 : ¬ (∀ e ∈ msgs, e.round = s.round - 1)
    · exact ⟨_, if_pos h4⟩
    rw [if_neg h4]
    push_neg at h4
    rcases h with hlen | ⟨e, he, hne⟩ | ⟨e, he, heq⟩
    · exact absurd h3 hlen
    · exact absurd (h4 e he) hne
    · refine ⟨_, if_pos ?_⟩
      intro hall
      exact hall e he heq
  obtain ⟨err, herr2⟩ := herr
  refine ⟨⟨err, herr2⟩, ?_⟩
  unfold Sign.afterNextRound
  rw [herr2]

/-- C1 witness: sessionR1 with the empty input (length 0 instead of
minSigners - 1 = 1). -/
theorem nextRound_rejects_invalid_check :
    (∃ err, sessionR1.nextRound [] = Except.error err)
      ∧ (sessionR1.afterNextRound []).round = sessionR1.round :=
  nextRound_rejects_invalid sessionR1 [] (Or.inl (by decide))

/-- C3: every successful initJoin or nextRound increases the session's round
counter by exactly one, and isSignatureReady holds exactly when round = 5. -/
theorem round_increments_and_ready_iff (s t u : Sign) (e1 e2 : Envelope)
    (msgs : List Envelope) :
    (s.initJoin = Except.ok (t, e1) → t.round = s.round + 1)
    ∧ (s.nextRound msgs = Except.ok (u, e2) → u.round = s.round + 1)
    ∧ (s.isSignatureReady = true ↔ s.round = 5) := by
  refine ⟨?_, ?_, ?_⟩
  · intro h
    unfold Sign.initJoin at h
    by_cases h0 : s.round ≠ 0
    · rw [if_pos h0] at h
      exact absurd h (by simp)
    · rw [if_neg h0] at h
      simp only [Sign.formatMessage, Except.ok.injEq, Prod.mk.injEq] at h
      obtain ⟨hS, -⟩ := h
      rw [← hS]
  · intro h
    unfold Sign.nextRound at h
    by_cases h1 : s.round ≤ 0
    · rw [if_pos h1] at h
      exact absurd h (by simp)
    rw [if_neg h1] at h
    by_cases h2 : 5 ≤ s.round
    · rw [if_pos h2] at h
      exact absurd h (by simp)
    rw [if_neg h2] at h
    by_cases h3 : (msgs.length : Int) ≠ s.minSigners - 1
    · rw [if_pos h3] at h
      exact absurd h (by simp)
    rw [if_neg h3] at h
    by_cases h4 : ¬ (∀ e ∈ msgs, e.round = s.round - 1)
    · rw [if_pos h4] at h
      exact absurd h (by simp)
    rw [if_neg h4] at h
    by_cases h5 : ¬ (∀ e ∈ msgs, e.partyId ≠ s.partyId)
    · rw [if_pos h5] at h
      exact absurd h (by simp)
    rw [if_neg h5] at h
    rcases hdec : decryptAndVerifyIncomingMessages msgs s.authKey with e | pr
    · rw [hdec] at h
      exact absurd h (by simp)
    · rw [hdec] at h
      simp only [Sign.formatMessage, Except.ok.injEq, Prod.mk.injEq] at h
      obtain ⟨hS, -⟩ := h
      rw [← hS]
  · simp [Sign.isSignatureReady]

/-- C3 witness: the three parts at concrete runs: initJoin on session0,
nextRound on sessionR1 with one valid peer envelope, readiness at round 5. -/
theorem round_increments_check :
    sessionR1.round = session0.round + 1
    ∧ sessionR2.round = sessionR1.round + 1
    ∧ (sessionR5.isSignatureReady = true ↔ sessionR5.round = 5) := by
  refine ⟨?_, ?_, ?_⟩
  · exact (round_increments_and_ready_iff session0 sessionR1 sessionR2 initEnv0 nextEnv1 []).1
      (by decide)
  · exact (round_increments_and_ready_iff sessionR1 sessionR1 sessionR2 initEnv0 nextEnv1
      [peerEnv]).2.1 (by decide)
  · exact (round_increments_and_ready_iff sessionR5 sessionR1 sessionR2 initEnv0 nextEnv1 []).2.2

/-- C6: the round field of the envelope a successful initJoin or nextRound
returns equals the session's round immediately before the call, which is the
round after the call minus one. -/
theorem envelope_tags_previous_round (s t u : Sign) (e1 e2 : Envelope)
    (msgs : List Envelope) :
    (s.initJoin = Except.ok (t, e1) → e1.round = s.round ∧ e1.round = t.round - 1)
    ∧ (s.nextRound msgs = Except.ok (u, e2) → e2.round = s.round ∧ e2.round = u.round - 1) := by
  constructor
  · intro h
    unfold Sign.initJoin at h
    by_cases h0 : s.round ≠ 0
    · rw [if_pos h0] at h
      exact absurd h (by simp)
    · rw [if_neg h0] at h
      simp only [Sign.formatMessage, Except.ok.injEq, Prod.mk.injEq] at h
      obtain ⟨hS, hE⟩ := h
      rw [← hS, ← hE]
      exact ⟨rfl, by simp⟩
  · intro h
    unfold Sign.nextRound at h
    by_cases h1 : s.round ≤ 0
    · rw [if_pos h1] at h
      exact absurd h (by simp)
    rw [if_neg h1] at h
    by_cases h2 : 5 ≤ s.round
    · rw [if_pos h2] at h
      exact absurd h (by simp)
    rw [if_neg h2] at h
    by_cases h3 : (msgs.length : Int) ≠ s.minSigners - 1
    · rw [if_pos h3] at h
      exact absurd h (by simp)
    rw [if_neg h3] at h
    by_cases h4 : ¬ (∀ e ∈ msgs, e.round = s.round - 1)
    · rw [if_pos h4] at h
      exact absurd h (by simp)
    rw [if_neg h4] at h
    by_cases h5 : ¬ (∀ e ∈ msgs, e.partyId ≠ s.partyId)
    · rw [if_pos h5] at h
      exact absurd h (by simp)
    rw [if_neg h5] at h
    rcases hdec : decryptAndVerifyIncomingMessages msgs s.authKey with e | pr
    · rw [hdec] at h
      exact absurd h (by simp)
    · rw [hdec] at h
      simp only [Sign.formatMessage, Except.ok.injEq, Prod.mk.injEq] at h
      obtain ⟨hS, hE⟩ := h
      rw [← hS, ← hE]
      exact ⟨rfl, by simp⟩

/-- C6 witness: the envelope rounds of the two concrete successful calls. -/
theorem envelope_tags_check :
    (initEnv0.round = session0.round ∧ initEnv0.round = sessionR1.round - 1)
    ∧ (nextEnv1.round = sessionR1.round ∧ nextEnv1.round = sessionR2.round - 1) :=
  ⟨(envelope_tags_previous_round session0 sessionR1 sessionR2 initEnv0 nextEnv1 []).1
      (by decide),
   (envelope_tags_previous_round sessionR1 sessionR1 sessionR2 initEnv0 nextEnv1
      [peerEnv]).2 (by decide)⟩

/-- C4: getSignature fails whenever isSignatureReady is false; a successful
call caches the assembled signature on the session, and a repeated call on
the resulting session returns the identical cached object with the state
unchanged. -/
theorem getSignature_idempotent (s t : Sign) (sig : SignatureObj) :
    (s.isSignatureReady = false → ∃ err, s.getSignature = Except.error err)
    ∧ (s.getSignature = Except.ok (t, sig) →
        t.getSignature = Except.ok (t, sig) ∧ t.signature = some sig) := by
  constructor
  · intro h
    exact ⟨_, by unfold Sign.getSignature; rw [if_pos h]⟩
  · intro h
    unfold Sign.getSignature at h
    by_cases hr : s.isSignatureReady = false
    · rw [if_pos hr] at h
      exact absurd h (by simp)
    · rw [if_neg hr] at h
      have hready : s.isSignatureReady = true := by
        cases hh : s.isSignatureReady
        · exact absurd hh hr
        · rfl
      rcases hsig : s.signature with - | sig0
      · rw [hsig] at h
        simp only [verifyAndConvertDklsSignature, Except.ok.injEq, Prod.mk.injEq] at h
        obtain ⟨hS, hE⟩ := h
        have ht5 : t.isSignatureReady = true := by
          rw [← hS]
          simpa [Sign.isSignatureReady] using hready
        have htsig : t.signature = some sig := by
          rw [← hS, ← hE]
        refine ⟨?_, htsig⟩
        unfold Sign.getSignature
        rw [if_neg (by rw [ht5]; intro hc; exact absurd hc (by simp)), htsig]
      · rw [hsig] at h
        simp only [Except.ok.injEq, Prod.mk.injEq] at h
        obtain ⟨hS, hE⟩ := h
        have ht5 : t.isSignatureReady = true := by
          rw [← hS]
          exact hready
        have htsig : t.signature = some sig := by
          rw [← hS, ← hE]
          exact hsig
        refine ⟨?_, htsig⟩
        unfold Sign.getSignature
        rw [if_neg (by rw [ht5]; intro hc; exact absurd hc (by simp)), htsig]

/-- C4 witness: the concrete failure before completion and the concrete
idempotent repetition at round 5. -/
theorem getSignature_idempotent_check :
    (∃ err, session0.getSignature = Except.error err)
    ∧ (sessionR5Sig.getSignature = Except.ok (sessionR5Sig, sampleSig)
        ∧ sessionR5Sig.signature = some sampleSig) :=
  ⟨(getSignature_idempotent session0 session0 sampleSig).1 (by decide),
   (getSignature_idempotent sessionR5 sessionR5Sig sampleSig).2 (by decide)⟩

/-- C5: export fails when round = 0, fails when the signature is ready, and
can only succeed for 0 < round < 5 (the invariant keeps round at most 5). -/
theorem export_requires_midsession (s : Sign) (hv : s.Valid) :
    (s.round = 0 → ∃ err, s.exportSession = Except.error err)
    ∧ (s.isSignatureReady = true → ∃ err, s.exportSession = Except.error err)
    ∧ (∀ ct, s.exportSession = Except.ok ct → 0 < s.round ∧ s.round < 5) := by
  obtain ⟨-, -, -, -, -, -, -, -, -, -, hr0, hr5⟩ := hv
  refine ⟨?_, ?_, ?_⟩
  · intro h
    exact ⟨_, by unfold Sign.exportSession; rw [if_pos (by omega)]⟩
  · intro h
    unfold Sign.exportSession
    by_cases h1 : s.round ≤ 0
    · exact ⟨_, if_pos h1⟩
    · rw [if_neg h1]
      exact ⟨_, if_pos h⟩
  · intro ct h
    unfold Sign.exportSession at h
    by_cases h1 : s.round ≤ 0
    · rw [if_pos h1] at h
      exact absurd h (by simp)
    rw [if_neg h1] at h
    by_cases h2 : s.isSignatureReady = true
    · rw [if_pos h2] at h
      exact absurd h (by simp)
    · have : ¬ s.round = 5 := by
        intro hh
        exact h2 (by simp [Sign.isSignatureReady, hh])
      omega

/-- C5 witness: the bounds at the concrete session sessionR1. -/
theorem export_requires_midsession_check :
    (sessionR1.round = 0 → ∃ err, sessionR1.exportSession = Except.error err)
    ∧ (sessionR1.isSignatureReady = true → ∃ err, sessionR1.exportSession = Except.error err)
    ∧ (∀ ct, sessionR1.exportSession = Except.ok ct →
        0 < sessionR1.round ∧ sessionR1.round < 5) :=
  export_requires_midsession sessionR1 (by decide)

/-- Full evaluation of the constructor when every assert passes. -/
theorem createSign_ok (kc : Keychain) (pid n m : Int) (mh : List Nat) (ak : Nat)
    (dp : Option (List Char)) (rd : Option Int)
    (h1 : isBuffer kc.privateKeyShare = true) (h2 : isBuffer kc.commonKeyChain = true)
    (h3 : 0 ≤ pid) (h4 : pid < n) (h5 : 1 < n) (h6 : 0 < m) (h7 : m ≤ n)
    (h8 : pathOk dp = true) (h9 : isBuffer mh = true) (h10 : mh.length = 32)
    (h11 : roundOk rd = true) :
    createSign { keychain := some kc, partyId := some pid, n := some n, m := some m,
                 derivationPath := dp, messageHash := some mh, authKey := some ak, round := rd }
      = Except.ok
        { keychain := kc, partyId := pid, partySize := n, minSigners := m,
          derivationPath := dp.getD ['m'], messageHash := mh, round := rd.getD 0,
          authKey := ak, dsg := mkDsg kc.privateKeyShare pid (dp.getD ['m']) mh,
          signature := none } := by
  unfold createSign
  dsimp only
  rw [if_neg (by simp [h1]), if_neg (by simp [h2]),
      if_neg (not_not_intro ⟨h3, h4⟩), if_neg (not_not_intro h5),
      if_neg (not_not_intro ⟨h6, h7⟩), if_neg (by simp [h8]),
      if_neg (not_not_intro ⟨h9, h10⟩), if_neg (by simp [h11])]

/-- C9: the constructor accepts an explicitly supplied round r with
0 ≤ r ≤ 5 (not only via restore): construction succeeds, the session's
round equals r (parseInt(r) || 0 collapses to r on integers, with the 0
case landing on the same value), and round = 5 makes isSignatureReady true
immediately, though no protocol round has executed. -/
theorem constructor_accepts_round (kc : Keychain) (pid n m : Int) (mh : List Nat)
    (ak : Nat) (dp : Option (List Char)) (r : Int)
    (hr0 : 0 ≤ r) (hr5 : r ≤ 5)
    (h1 : isBuffer kc.privateKeyShare = true) (h2 : isBuffer kc.commonKeyChain = true)
    (h3 : 0 ≤ pid) (h4 : pid < n) (h5 : 1 < n) (h6 : 0 < m) (h7 : m ≤ n)
    (h8 : pathOk dp = true) (h9 : isBuffer mh = true) (h10 : mh.length = 32) :
    ∃ s, createSign { keychain := some kc, partyId := some pid, n := some n, m := some m,
                      derivationPath := dp, messageHash := some mh, authKey := some ak,
                      round := some r }
        = Except.ok s
      ∧ s.round = r ∧ (s.isSignatureReady = true ↔ r = 5) := by
  have h11 : roundOk (some r) = true := by
    simp only [roundOk, decide_eq_true_eq]
    exact ⟨hr0, hr5⟩
  refine ⟨_, createSign_ok kc pid n m mh ak dp (some r) h1 h2 h3 h4 h5 h6 h7 h8 h9 h10 h11,
    rfl, ?_⟩
  simp [Sign.isSignatureReady]

/-- C9 witness: an explicit round of 5 straight from the constructor. -/
theorem constructor_accepts_round_check :
    ∃ s, createSign { keychain := some sampleKeychain, partyId := some 0, n := some 3,
                      m := some 2, derivationPath := none, messageHash := some sampleHash,
                      authKey := some 7, round := some 5 }
        = Except.ok s
      ∧ s.round = 5 ∧ (s.isSignatureReady = true ↔ (5 : Int) = 5) :=
  constructor_accepts_round sampleKeychain 0 3 2 sampleHash 7 none 5
    (by decide) (by decide) (by decide) (by decide) (by decide) (by decide)
    (by decide) (by decide) (by decide) (by decide) (by decide) (by decide)

/-- C7 counterexample: the constructor rejects an explicitly empty
derivationPath string ('' is falsy in JavaScript, but '' == null is false
and ''.startsWith('m') is false, so the assert throws); it does not fall
back to the root path. -/
theorem empty_path_rejected_cex :
    createSign { keychain := some sampleKeychain, partyId := some 0, n := some 3,
                 m := some 2, derivationPath := some [], messageHash := some sampleHash,
                 authKey := some 7, round := none }
      = Except.error ("derivationPath must be a string starting with m") := by decide

/-- C7 (amended): an absent or null derivationPath makes construction
succeed with the root path 'm' (given otherwise-valid parameters), but an
explicitly empty derivationPath string is rejected by the constructor's
assert rather than treated like an absent one. -/
theorem derivation_path_default (kc : Keychain) (pid n m : Int) (mh : List Nat)
    (ak : Nat) (rd : Option Int)
    (h1 : isBuffer kc.privateKeyShare = true) (h2 : isBuffer kc.commonKeyChain = true)
    (h3 : 0 ≤ pid) (h4 : pid < n) (h5 : 1 < n) (h6 : 0 < m) (h7 : m ≤ n)
    (h9 : isBuffer mh = true) (h10 : mh.length = 32) (h11 : roundOk rd = true) :
    (∃ s, createSign { keychain := some kc, partyId := some pid, n := some n, m := some m,
                       derivationPath := none, messageHash := some mh, authKey := some ak,
                       round := rd }
        = Except.ok s
      ∧ s.derivationPath = ['m'])
    ∧ createSign { keychain := some kc, partyId := some pid, n := some n, m := some m,
                   derivationPath := some [], messageHash := some mh, authKey := some ak,
                   round := rd }
      = Except.error ("derivationPath must be a string starting with m") := by
  constructor
  · exact ⟨_, createSign_ok kc pid n m mh ak none rd h1 h2 h3 h4 h5 h6 h7 (by rfl) h9 h10 h11,
      rfl⟩
  · unfold createSign
    dsimp only
    rw [if_neg (by simp [h1]), if_neg (by simp [h2]),
        if_neg (not_not_intro ⟨h3, h4⟩), if_neg (not_not_intro h5),
        if_neg (not_not_intro ⟨h6, h7⟩), if_pos (by rfl)]

/-- C7 witness: the amended statement at the sample parameters. -/
theorem derivation_path_default_check :
    (∃ s, createSign { keychain := some sampleKeychain, partyId := some 0, n := some 3,
                       m := some 2, derivationPath := none, messageHash := some sampleHash,
                       authKey := some 7, round := none }
        = Except.ok s
      ∧ s.derivationPath = ['m'])
    ∧ createSign { keychain := some sampleKeychain, partyId := some 0, n := some 3,
                   m := some 2, derivationPath := some [], messageHash := some sampleHash,
                   authKey := some 7, round := none }
      = Except.error ("derivationPath must be a string starting with m") :=
  derivation_path_default sampleKeychain 0 3 2 sampleHash 7 none
    (by decide) (by decide) (by decide) (by decide) (by decide) (by decide)
    (by decide) (by decide) (by decide) (by decide)

/-- A Buffer check certifies every entry is a byte. -/
theorem isBuffer_bytes {l : List Nat} (h : isBuffer l = true) : ∀ x ∈ l, x < 256 := by
  intro x hx
  have hall := List.all_eq_true.mp h x hx
  exact of_decide_eq_true hall

/-- Decrypting with the key an envelope was encrypted to recovers the
payload. -/
theorem decrypt_encrypt (payload : List Char) (toKey f1 f2 : Nat) :
    decrypt (encrypt payload toKey f1) toKey f2 = Except.ok payload := by
  unfold decrypt encrypt
  rw [if_pos rfl]

/-- C2 counterexample: the constructor accepts the derivationPath "m:m"
(it starts with 'm'), but the colon-delimited export record then splits at
the path's own colon, so restoring the exported session with the same
identity key and key share fails instead of reproducing the session. -/
theorem export_restore_colon_cex :
    createSign { keychain := some sampleKeychain, partyId := some 0, n := some 3,
                 m := some 2, derivationPath := some ['m', ':', 'm'],
                 messageHash := some sampleHash, authKey := some 7, round := some 1 }
      = Except.ok colonSession
    ∧ (match colonSession.exportSession with
       | Except.ok ct => Sign.restore ct colonSession.keychain colonSession.authKey
       | Except.error e => Except.error e)
      = Except.error ("messageHash must be a 32 byte buffer") := by decide

/-- C2 (amended): for every constructor-produced session with
0 < round < 5 whose derivationPath contains no colon, restoring the
exported record with the same identity key and key share yields a session
whose round, partyId, partySize, minSigners, derivationPath and messageHash
equal those of the original at the moment of export. The colon restriction
is forced by the counterexample: the export record is colon-delimited and
the constructor accepts paths containing ':'. -/
theorem export_restore_roundtrip (s : Sign) (hv : s.Valid) (hr1 : 0 < s.round)
    (hr2 : s.round < 5) (hc : ':' ∉ s.derivationPath) :
    ∃ ct s2, s.exportSession = Except.ok ct
      ∧ Sign.restore ct s.keychain s.authKey = Except.ok s2
      ∧ s2.round = s.round ∧ s2.partyId = s.partyId ∧ s2.partySize = s.partySize
      ∧ s2.minSigners = s.minSigners ∧ s2.derivationPath = s.derivationPath
      ∧ s2.messageHash = s.messageHash := by
  obtain ⟨hb1, hb2, hp0, hpn, hn, hm0, hmn, hdp, hmb, hml, hz0, hz5⟩ := hv
  have hnready : ¬ s.isSignatureReady = true := by
    simp only [Sign.isSignatureReady, beq_iff_eq]
    omega
  have hexp : s.exportSession = Except.ok (encrypt
      (intChars s.round ++ ':' :: (intChars s.partySize ++ ':' :: (intChars s.minSigners
        ++ ':' :: (intChars s.partyId ++ ':' :: (s.derivationPath
        ++ ':' :: (b64encode s.dsg.sessionBytes ++ ':' :: b64encode s.messageHash))))))
      (pubKeyOf s.authKey) s.authKey) := by
    unfold Sign.exportSession
    rw [if_neg (by omega), if_neg hnready]
  have hsplit : splitCh (intChars s.round ++ ':' :: (intChars s.partySize
        ++ ':' :: (intChars s.minSigners ++ ':' :: (intChars s.partyId
        ++ ':' :: (s.derivationPath ++ ':' :: (b64encode s.dsg.sessionBytes
        ++ ':' :: b64encode s.messageHash))))))
      = [intChars s.round, intChars s.partySize, intChars s.minSigners, intChars s.partyId,
         s.derivationPath, b64encode s.dsg.sessionBytes, b64encode s.messageHash] := by
    rw [splitCh_append _ _ (intChars_no_colon _ (by omega)),
        splitCh_append _ _ (intChars_no_colon _ (by omega)),
        splitCh_append _ _ (intChars_no_colon _ (by omega)),
        splitCh_append _ _ (intChars_no_colon _ (by omega)),
        splitCh_append _ _ hc,
        splitCh_append _ _ (b64encode_no_colon _),
        splitCh_no_colon _ (b64encode_no_colon _)]
  have hdecode : b64decode (b64encode s.messageHash) = s.messageHash :=
    b64decode_b64encode _ (isBuffer_bytes hmb)
  have hpath : pathOk (some s.derivationPath) = true := by
    simp only [pathOk, hdp]
    rfl
  have hround : roundOk (some s.round) = true := by
    simp only [roundOk, decide_eq_true_eq]
    omega
  refine ⟨_, { keychain := s.keychain, partyId := s.partyId, partySize := s.partySize,
               minSigners := s.minSigners, derivationPath := s.derivationPath,
               messageHash := s.messageHash, round := s.round, authKey := s.authKey,
               dsg := (mkDsg s.keychain.privateKeyShare s.partyId s.derivationPath
                 s.messageHash).setSession (b64decode (b64encode s.dsg.sessionBytes)),
               signature := none },
           hexp, ?_, rfl, rfl, rfl, rfl, rfl, rfl⟩
  unfold Sign.restore
  rw [decrypt_encrypt]
  dsimp only
  rw [hsplit]
  simp only [List.length_cons, List.length_nil, List.getD_cons_zero, List.getD_cons_succ]
  rw [if_neg (by omega)]
  rw [parseIntJs_intChars _ (by omega), parseIntJs_intChars _ (by omega),
      parseIntJs_intChars _ (by omega), parseIntJs_intChars _ (by omega)]
  dsimp only
  rw [hdecode]
  rw [createSign_ok s.keychain s.partyId s.partySize s.minSigners s.messageHash s.authKey
      (some s.derivationPath) (some s.round) hb1 hb2 hp0 hpn hn hm0 hmn hpath hmb hml hround]
  rfl

/-- C2 witness: the round trip at the concrete session sessionR1. -/
theorem export_restore_roundtrip_check :
    ∃ ct s2, sessionR1.exportSession = Except.ok ct
      ∧ Sign.restore ct sessionR1.keychain sessionR1.authKey = Except.ok s2
      ∧ s2.round = sessionR1.round ∧ s2.partyId = sessionR1.partyId
      ∧ s2.partySize = sessionR1.partySize ∧ s2.minSigners = sessionR1.minSigners
      ∧ s2.derivationPath = sessionR1.derivationPath
      ∧ s2.messageHash = sessionR1.messageHash :=
  export_restore_roundtrip sessionR1 (by decide) (by decide) (by decide) (by decide)

/-! ## The chain-parameter registry (packages/bitcore-lib-doge/lib/networks.js)

The module keeps two globals: `networks`, an array of Network objects in
registration order, and `networkMaps`, an object mapping the JavaScript
string coercion of every scalar property value of a registered network to
the array of networks pushed under that key. addNetwork builds a Network
from its data, indexes every non-null non-object property value, pushes the
network, and recursively adds each variant with the parent's fields
overridden by the variant's ({...data, variants: undefined, ...variant}). -/

/-- The data object passed to addNetwork. The alias field is named
aliasName (alias is a Mathlib command keyword); isFn models the `is`
helper function property, identified by its string coercion, which the
value loop indexes because typeof is 'function', not 'object'. A none is
an absent (or undefined) property; an absent variants array and an empty
one behave identically, so variants is a plain list. -/
inductive NetworkData where
  | mk :
    (name aliasName isFn : Option String) →
    (pubkeyhash privatekey scripthash xpubkey xprivkey : Option Nat) →
    (networkMagic port : Option Nat) →
    (dnsSeeds : Option (List String)) →
    (variants : List NetworkData) →
    NetworkData

def NetworkData.name : NetworkData → Option String
  | .mk v _ _ _ _ _ _ _ _ _ _ _ => v

def NetworkData.aliasName : NetworkData → Option String
  | .mk _ v _ _ _ _ _ _ _ _ _ _ => v

def NetworkData.isFn : NetworkData → Option String
  | .mk _ _ v _ _ _ _ _ _ _ _ _ => v

def NetworkData.pubkeyhash : NetworkData → Option Nat
  | .mk _ _ _ v _ _ _ _ _ _ _ _ => v

def NetworkData.privatekey : NetworkData → Option Nat
  | .mk _ _ _ _ v _ _ _ _ _ _ _ => v

def NetworkData.scripthash : NetworkData → Option Nat
  | .mk _ _ _ _ _ v _ _ _ _ _ _ => v

def NetworkData.xpubkey : NetworkData → Option Nat
  | .mk _ _ _ _ _ _ v _ _ _ _ _ => v

def NetworkData.xprivkey : NetworkData → Option Nat
  | .mk _ _ _ _ _ _ _ v _ _ _ _ => v

def NetworkData.networkMagic : NetworkData → Option Nat
  | .mk _ _ _ _ _ _ _ _ v _ _ _ => v

def NetworkData.port : NetworkData → Option Nat
  | .mk _ _ _ _ _ _ _ _ _ v _ _ => v

def NetworkData.dnsSeeds : NetworkData → Option (List String)
  | .mk _ _ _ _ _ _ _ _ _ _ v _ => v

def NetworkData.variants : NetworkData → List NetworkData
  | .mk _ _ _ _ _ _ _ _ _ _ _ v => v

/-- A registered Network object: name..xprivkey are always defined (value
possibly undefined); networkMagic and port only when the data value is
truthy (a Buffer and a number respectively); dnsSeeds when present (an
array is always truthy). -/
structure Network where
  name : Option String
  aliasName : Option String
  isFn : Option String
  pubkeyhash : Option Nat
  privatekey : Option Nat
  scripthash : Option Nat
  xpubkey : Option Nat
  xprivkey : Option Nat
  networkMagic : Option Nat
  port : Option Nat
  dnsSeeds : Option (List String)
deriving DecidableEq

/-- The spread-merge addNetwork performs for one variant:
{...data, variants: undefined, ...variant} — the variant's own properties
override the parent's, and the merged variants are the variant's own list
(undefined, hence empty, when it supplies none). -/
def mergeVariant (d v : NetworkData) : NetworkData :=
  .mk (v.name.orElse (fun _ => d.name))
      (v.aliasName.orElse (fun _ => d.aliasName))
      (v.isFn.orElse (fun _ => d.isFn))
      (v.pubkeyhash.orElse (fun _ => d.pubkeyhash))
      (v.privatekey.orElse (fun _ => d.privatekey))
      (v.scripthash.orElse (fun _ => d.scripthash))
      (v.xpubkey.orElse (fun _ => d.xpubkey))
      (v.xprivkey.orElse (fun _ => d.xprivkey))
      (v.networkMagic.orElse (fun _ => d.networkMagic))
      (v.port.orElse (fun _ => d.port))
      (v.dnsSeeds.orElse (fun _ => d.dnsSeeds))
      v.variants

/-- The Network object one addNetwork call defines for its data
(before the variants recursion): networkMagic is stored (as a Buffer) only
if truthy, port only if truthy, dnsSeeds if present. -/
def mkNetwork (d : NetworkData) : Network :=
  { name := d.name
    aliasName := d.aliasName
    isFn := d.isFn
    pubkeyhash := d.pubkeyhash
    privatekey := d.privatekey
    scripthash := d.scripthash
    xpubkey := d.xpubkey
    xprivkey := d.xprivkey
    networkMagic := match d.networkMagic with
      | some v => if v ≠ 0 then some v else none
      | none => none
    port := match d.port with
      | some v => if v ≠ 0 then some v else none
      | none => none
    dnsSeeds := d.dnsSeeds }

mutual
/-- How many networks the addNetwork recursion registers for one data
object: itself plus, recursively, its variants. -/
def vsize : NetworkData → Nat
  | .mk _ _ _ _ _ _ _ _ _ _ _ vs => 1 + vsizeList vs

/-- Total registration count of a list of data objects. -/
def vsizeList : List NetworkData → Nat
  | [] => 0
  | d :: ds => vsize d + vsizeList ds
end

/-- JavaScript property-key coercion of a number. -/
def natKey (n : Nat) : String := String.mk (natChars n)

/-- The string keys under which the Object.values loop indexes a network,
in property-definition order: strings and the `is` function keep their
coercion, numbers coerce to their decimal strings, null/undefined values
and objects (the networkMagic Buffer, the dnsSeeds array) are skipped. -/
def indexKeys (n : Network) : List String :=
  n.name.toList ++ n.aliasName.toList ++ n.isFn.toList
    ++ (n.pubkeyhash.map natKey).toList ++ (n.privatekey.map natKey).toList
    ++ (n.scripthash.map natKey).toList ++ (n.xpubkey.map natKey).toList
    ++ (n.xprivkey.map natKey).toList ++ (n.port.map natKey).toList

/-- The registry's mutable module state: the networks array and the
networkMaps object (an association list keyed by coerced strings). -/
structure Registry where
  networks : List Network
  networkMaps : List (String × List Network)
deriving DecidableEq

/-- The registry before any addNetwork call. -/
def emptyRegistry : Registry := { networks := [], networkMaps := [] }

/-- networkMaps[value].push(network), creating the array if absent. -/
def mapsPush : List (String × List Network) → String → Network → List (String × List Network)
  | [], k, net => [(k, [net])]
  | (k2, l) :: rest, k, net =>
    if k2 = k then (k2, l ++ [net]) :: rest else (k2, l) :: mapsPush rest k net

/-- networkMaps[key] as a list ([] both for an absent key and for a stored
empty array, neither of which get returns as a Network). -/
def mapsAt : List (String × List Network) → String → List Network
  | [], _ => []
  | (k2, l) :: rest, k => if k2 = k then l else mapsAt rest k

/-- One addNetwork call without its variants recursion: index every scalar
value of the network, then push the network. -/
def registerOne (net : Network) (r : Registry) : Registry :=
  { networks := r.networks ++ [net],
    networkMaps := (indexKeys net).foldl (fun mp k => mapsPush mp k net) r.networkMaps }

theorem vsize_mergeVariant (d v : NetworkData) : vsize (mergeVariant d v) = vsize v := by
  cases d
  cases v
  simp [mergeVariant, vsize, NetworkData.variants]

theorem vsize_pos (d : NetworkData) : 0 < vsize d := by
  cases d
  simp [vsize]

theorem vsize_eq (d : NetworkData) : vsize d = 1 + vsizeList d.variants := by
  cases d
  simp [vsize, NetworkData.variants]

theorem vsizeList_append (a b : List NetworkData) :
    vsizeList (a ++ b) = vsizeList a + vsizeList b := by
  induction a with
  | nil => rw [List.nil_append, vsizeList, Nat.zero_add]
  | cons v rest ih =>
    rw [List.cons_append, vsizeList, vsizeList, ih, Nat.add_assoc]

theorem vsizeList_map_merge (d : NetworkData) (vs : List NetworkData) :
    vsizeList (vs.map (mergeVariant d)) = vsizeList vs := by
  induction vs with
  | nil => rfl
  | cons v rest ih =>
    rw [List.map_cons, vsizeList, vsizeList, vsize_mergeVariant, ih]

/-- The registration worklist: addNetwork(data) processes data itself, then
each variant (merged over the parent) depth-first, which is exactly this
queue order. The worklist form keeps the recursion on one argument; its
single unfolding step is the source's addNetwork body. -/
def addNetworkList (ds : List NetworkData) (r : Registry) : Registry :=
  match ds with
  | [] => r
  | d :: rest =>
    addNetworkList (d.variants.map (mergeVariant d) ++ rest) (registerOne (mkNetwork d) r)
termination_by vsizeList ds
decreasing_by
  simp_wf
  rw [vsizeList_append, vsizeList_map_merge]
  have h := vsize_eq d
  simp only [vsizeList]
  omega

/-- addNetwork (networks.js lines 79-130). -/
def addNetwork (d : NetworkData) (r : Registry) : Registry := addNetworkList [d] r

/-- The networks one addNetworkList run appends, in registration order. -/
def flattenNetworks (ds : List NetworkData) : List Network :=
  match ds with
  | [] => []
  | d :: rest =>
    mkNetwork d :: flattenNetworks (d.variants.map (mergeVariant d) ++ rest)
termination_by vsizeList ds
decreasing_by
  simp_wf
  rw [vsizeList_append, vsizeList_map_merge]
  have h := vsize_eq d
  simp only [vsizeList]
  omega

/-- get(arg) without the keys parameter, for a string-coerced scalar value:
returns networkMaps[arg][0] when that array exists and is non-empty; the
undefined / empty-array returns are none. (The identity fast path
~networks.indexOf(arg) cannot hit for a scalar argument.) -/
def keylessGet (r : Registry) (k : String) : Option Network :=
  (mapsAt r.networkMaps k).head?

/-- The registry states reachable from the empty module state by addNetwork
calls (the claims concern add followed by get; remove is out of their
scope). -/
inductive Reached : Registry → Prop where
  | base : Reached emptyRegistry
  | step (d : NetworkData) (r : Registry) : Reached r → Reached (addNetwork d r)

/-! ### Unfolding equations and registration lemmas -/

theorem addNetworkList_nil (r : Registry) : addNetworkList [] r = r := by
  rw [addNetworkList.eq_def]

theorem addNetworkList_cons (d : NetworkData) (rest : List NetworkData) (r : Registry) :
    addNetworkList (d :: rest) r
      = addNetworkList (d.variants.map (mergeVariant d) ++ rest)
          (registerOne (mkNetwork d) r) := by
  rw [addNetworkList.eq_def]

theorem flattenNetworks_nil : flattenNetworks [] = [] := by
  rw [flattenNetworks.eq_def]

theorem flattenNetworks_cons (d : NetworkData) (rest : List NetworkData) :
    flattenNetworks (d :: rest)
      = mkNetwork d :: flattenNetworks (d.variants.map (mergeVariant d) ++ rest) := by
  rw [flattenNetworks.eq_def]

theorem addNetwork_no_variants (d : NetworkData) (h : d.variants = []) (r : Registry) :
    addNetwork d r = registerOne (mkNetwork d) r := by
  rw [addNetwork, addNetworkList_cons, h, List.map_nil, List.nil_append, addNetworkList_nil]

theorem addNetworkList_networks (ds : List NetworkData) (r : Registry) :
    (addNetworkList ds r).networks = r.networks ++ flattenNetworks ds := by
  generalize hfuel : vsizeList ds = fuel
  induction fuel using Nat.strong_induction_on generalizing ds r with
  | _ fuel ih =>
    match ds with
    | [] =>
      rw [addNetworkList_nil, flattenNetworks_nil, List.append_nil]
    | d :: rest =>
      rw [addNetworkList_cons, flattenNetworks_cons]
      have hlt : vsizeList (d.variants.map (mergeVariant d) ++ rest) < fuel := by
        rw [vsizeList_append, vsizeList_map_merge]
        have hd := vsize_eq d
        subst hfuel
        simp only [vsizeList]
        omega
      rw [ih _ hlt _ _ rfl]
      simp [registerOne]

theorem flattenNetworks_length (ds : List NetworkData) :
    (flattenNetworks ds).length = vsizeList ds := by
  generalize hfuel : vsizeList ds = fuel
  induction fuel using Nat.strong_induction_on generalizing ds with
  | _ fuel ih =>
    match ds with
    | [] =>
      rw [flattenNetworks_nil]
      subst hfuel
      rfl
    | d :: rest =>
      rw [flattenNetworks_cons]
      have hlt : vsizeList (d.variants.map (mergeVariant d) ++ rest) < fuel := by
        rw [vsizeList_append, vsizeList_map_merge]
        have hd := vsize_eq d
        subst hfuel
        simp only [vsizeList]
        omega
      rw [List.length_cons, ih _ hlt _ rfl]
      rw [vsizeList_append, vsizeList_map_merge]
      have hd := vsize_eq d
      subst hfuel
      simp only [vsizeList]
      omega

/-- The occurrences of networks under one key, in registration order, one
entry per indexed field whose coercion equals the key. -/
def keyOccs (k : String) : List Network → List Network
  | [] => []
  | n :: ns => List.replicate ((indexKeys n).count k) n ++ keyOccs k ns

/-- The networkMaps invariant of every add-only state: the bucket of a key
lists the networks carrying that key, in registration order, with
multiplicity. -/
def MapsInv (r : Registry) : Prop :=
  ∀ k, mapsAt r.networkMaps k = keyOccs k r.networks

theorem keyOccs_append (k : String) (a b : List Network) :
    keyOccs k (a ++ b) = keyOccs k a ++ keyOccs k b := by
  induction a with
  | nil => rw [List.nil_append, keyOccs, List.nil_append]
  | cons n rest ih =>
    rw [List.cons_append, keyOccs, keyOccs, ih, List.append_assoc]

theorem mapsAt_push_same (mp : List (String × List Network)) (k : String) (net : Network) :
    mapsAt (mapsPush mp k net) k = mapsAt mp k ++ [net] := by
  induction mp with
  | nil => simp [mapsPush, mapsAt]
  | cons e rest ih =>
    rcases e with ⟨k2, l⟩
    by_cases h : k2 = k
    · rw [mapsPush, if_pos h, mapsAt, if_pos h, mapsAt, if_pos h]
    · rw [mapsPush, if_neg h, mapsAt, if_neg h, mapsAt, if_neg h, ih]

theorem mapsAt_push_other (mp : List (String × List Network)) (k k2 : String)
    (net : Network) (h : k2 ≠ k) :
    mapsAt (mapsPush mp k2 net) k = mapsAt mp k := by
  induction mp with
  | nil => simp [mapsPush, mapsAt, h]
  | cons e rest ih =>
    rcases e with ⟨k3, l⟩
    by_cases h3 : k3 = k2
    · rw [mapsPush, if_pos h3, mapsAt, if_neg (by rw [h3]; exact h), mapsAt,
        if_neg (by rw [h3]; exact h)]
    · rw [mapsPush, if_neg h3, mapsAt, mapsAt]
      by_cases h4 : k3 = k
      · rw [if_pos h4, if_pos h4]
      · rw [if_neg h4, if_neg h4, ih]

theorem mapsAt_foldl_push (ks : List String) (mp : List (String × List Network))
    (net : Network) (k : String) :
    mapsAt (ks.foldl (fun m k2 => mapsPush m k2 net) mp) k
      = mapsAt mp k ++ List.replicate (ks.count k) net := by
  induction ks generalizing mp with
  | nil => simp
  | cons k2 ks ih =>
    rw [List.foldl_cons, ih]
    by_cases h : k2 = k
    · subst h
      rw [mapsAt_push_same, List.count_cons_self, List.replicate_succ, List.append_assoc]
      rfl
    · rw [mapsAt_push_other _ _ _ _ h, List.count_cons_of_ne (fun hh => h hh.symm)]

theorem registerOne_mapsInv (net : Network) (r : Registry) (h : MapsInv r) :
    MapsInv (registerOne net r) := by
  intro k
  unfold registerOne
  rw [mapsAt_foldl_push, h k, keyOccs_append, keyOccs, keyOccs, List.append_nil]

theorem addNetworkList_mapsInv (ds : List NetworkData) (r : Registry) (h : MapsInv r) :
    MapsInv (addNetworkList ds r) := by
  generalize hfuel : vsizeList ds = fuel
  induction fuel using Nat.strong_induction_on generalizing ds r with
  | _ fuel ih =>
    match ds with
    | [] =>
      rw [addNetworkList_nil]
      exact h
    | d :: rest =>
      rw [addNetworkList_cons]
      have hlt : vsizeList (d.variants.map (mergeVariant d) ++ rest) < fuel := by
        rw [vsizeList_append, vsizeList_map_merge]
        have hd := vsize_eq d
        subst hfuel
        simp only [vsizeList]
        omega
      exact ih _ hlt _ _ (registerOne_mapsInv (mkNetwork d) r h) rfl

theorem reached_mapsInv (r : Registry) (h : Reached r) : MapsInv r := by
  induction h with
  | base =>
    intro k
    rfl
  | step d r2 hr ih =>
    exact addNetworkList_mapsInv [d] r2 ih

theorem keyOccs_head (k : String) : ∀ ns : List Network,
    (keyOccs k ns).head? = ns.find? (fun n => (indexKeys n).contains k)
  | [] => rfl
  | n :: ns => by
    rw [keyOccs]
    by_cases h : k ∈ indexKeys n
    · have hfind : List.find? (fun x => (indexKeys x).contains k) (n :: ns) = some n := by
        simp [List.find?_cons, h]
      rw [hfind]
      have hc : 0 < (indexKeys n).count k := List.count_pos_iff.mpr h
      rcases hcc : (indexKeys n).count k with - | c
      · omega
      · rw [List.replicate_succ, List.cons_append]
        rfl
    · have hfind : List.find? (fun x => (indexKeys x).contains k) (n :: ns)
          = List.find? (fun x => (indexKeys x).contains k) ns := by
        simp [List.find?_cons, h]
      rw [hfind, List.count_eq_zero.mpr h, List.replicate_zero, List.nil_append,
        keyOccs_head k ns]

/-! ### Concrete registry data for the witnesses and counterexamples -/

/-- A custom network whose name is "alpha". -/
def alphaData : NetworkData :=
  .mk (some "alpha") (some "beta") none (some 30) none none none none none none none []

/-- A custom network registered later whose alias is "alpha". -/
def gammaData : NetworkData :=
  .mk (some "gamma") (some "alpha") none none none none none none none none none []

/-- The registry after add(alphaData) on the empty module state. -/
def alphaRegistry : Registry := addNetwork alphaData emptyRegistry

/-- The registry after add(alphaData) then add(gammaData). -/
def cexRegistry : Registry := addNetwork gammaData alphaRegistry

/-- A data object with one variant that itself carries one variant. -/
def nestedData : NetworkData :=
  .mk (some "outer") none none none none none none none none none none
    [.mk (some "middle") none none none none none none none none none none
      [.mk (some "inner") none none none none none none none none none none []]]

/-! ## Claims about the registry -/

/-- C8 counterexample: gammaData is registered through add with alias
"alpha", but a keyless get("alpha") returns the earlier network whose NAME
is "alpha" — a network whose alias field does not equal "alpha" — so get
does not return a network whose corresponding field equals the queried
value. -/
theorem registry_get_cross_field_cex :
    mkNetwork gammaData ∈ cexRegistry.networks
    ∧ (mkNetwork gammaData).aliasName = some "alpha"
    ∧ keylessGet cexRegistry "alpha" = some (mkNetwork alphaData)
    ∧ (mkNetwork alphaData).aliasName ≠ some "alpha"
    ∧ mkNetwork alphaData ≠ mkNetwork gammaData := by
  have h1 : cexRegistry
      = registerOne (mkNetwork gammaData)
          (registerOne (mkNetwork alphaData) emptyRegistry) := by
    rw [cexRegistry, alphaRegistry, addNetwork_no_variants gammaData rfl,
      addNetwork_no_variants alphaData rfl]
  rw [h1]
  decide

/-- C8 (amended): for every add-only registry state, every registered
network and every key among its indexed scalar values (its distinguishing
field values under JavaScript string coercion), a keyless get on that key
returns the earliest-added network that carries the key among its indexed
scalar values — not necessarily in the same field the key was taken from. -/
theorem registry_get_earliest (r : Registry) (hr : Reached r) (net : Network)
    (k : String) (hnet : net ∈ r.networks) (hk : k ∈ indexKeys net) :
    ∃ m, keylessGet r k = some m ∧ m ∈ r.networks ∧ k ∈ indexKeys m
      ∧ keylessGet r k = r.networks.find? (fun n => (indexKeys n).contains k) := by
  have hinv := reached_mapsInv r hr
  have hget : keylessGet r k = r.networks.find? (fun n => (indexKeys n).contains k) := by
    unfold keylessGet
    rw [hinv k, keyOccs_head]
  have hsome : ∃ m, r.networks.find? (fun n => (indexKeys n).contains k) = some m := by
    rw [← Option.isSome_iff_exists, List.find?_isSome]
    exact ⟨net, hnet, by simpa using hk⟩
  obtain ⟨m, hm⟩ := hsome
  refine ⟨m, by rw [hget, hm], List.mem_of_find?_eq_some hm, ?_, hget⟩
  have hp := List.find?_some hm
  simpa using hp

/-- C8 witness: the registry holding only alphaData, queried at "alpha". -/
theorem registry_get_earliest_check :
    ∃ m, keylessGet alphaRegistry "alpha" = some m ∧ m ∈ alphaRegistry.networks
      ∧ "alpha" ∈ indexKeys m
      ∧ keylessGet alphaRegistry "alpha"
        = alphaRegistry.networks.find? (fun n => (indexKeys n).contains "alpha") :=
  registry_get_earliest alphaRegistry
    (Reached.step alphaData emptyRegistry Reached.base)
    (mkNetwork alphaData) "alpha"
    (by rw [alphaRegistry, addNetwork_no_variants alphaData rfl]; decide)
    (by decide)

/-- C10 counterexample: one add call whose data has a single variant, but
that variant supplies its own variants array: the call registers three
networks, not 1 + 1 = 2 — and the inner variant's variants field is not
cleared but processed. -/
theorem nested_variants_cex :
    nestedData.variants.length = 1
    ∧ (addNetwork nestedData emptyRegistry).networks.length = 3 := by
  constructor
  · rfl
  · rw [addNetwork, addNetworkList_networks, List.length_append, flattenNetworks_length]
    decide

/-- C10 (amended): an add call registers the flattened recursion: the
network of the data itself followed, depth-first, by one network per
variant (the parent's fields overridden by the variant's, the variants
field replaced by the variant's own list — cleared only when the variant
supplies none); the number of networks registered is the recursive count
vsize, which is 1 + (number of variants) exactly when no variant nests
further variants. -/
theorem addNetwork_registers_recursive (d : NetworkData) (r : Registry) :
    (addNetwork d r).networks = r.networks ++ flattenNetworks [d]
    ∧ (flattenNetworks [d]).length = vsize d
    ∧ flattenNetworks [d]
      = mkNetwork d :: flattenNetworks (d.variants.map (mergeVariant d)) := by
  refine ⟨by rw [addNetwork, addNetworkList_networks], ?_, ?_⟩
  · rw [flattenNetworks_length]
    simp [vsizeList]
  · rw [flattenNetworks_cons, List.append_nil]

/-! ### The construction invariant really is an invariant: the constructor
establishes Sign.Valid and every operation preserves it, so the Valid
hypotheses of the export and round-trip theorems hold of every session the
module can produce. -/

theorem pathOk_head (dp : Option (List Char)) (h : pathOk dp = true) :
    (dp.getD ['m']).head? = some 'm' := by
  cases dp with
  | none => rfl
  | some l =>
    simp only [pathOk, beq_iff_eq] at h
    simpa using h

theorem roundOk_bounds (rd : Option Int) (h : roundOk rd = true) :
    0 ≤ rd.getD 0 ∧ rd.getD 0 ≤ 5 := by
  cases rd with
  | none => exact ⟨by decide, by decide⟩
  | some r =>
    simp only [roundOk, decide_eq_true_eq] at h
    simpa using h

theorem createSign_valid (p : SignParams) (s : Sign) (h : createSign p = Except.ok s) :
    s.Valid := by
  unfold createSign at h
  repeat' split at h
  all_goals try exact absurd h (fun hh => Except.noConfusion hh)
  simp only [Except.ok.injEq] at h
  subst h
  rename_i hks hck hpid hn hm hpath hhash hround
  refine ⟨by simpa using hks, by simpa using hck, ?_, ?_, ?_, ?_, ?_, ?_, ?_, ?_, ?_, ?_⟩
  · exact (not_not.mp hpid).1
  · exact (not_not.mp hpid).2
  · exact not_not.mp hn
  · exact (not_not.mp hm).1
  · exact (not_not.mp hm).2
  · exact pathOk_head _ (by simpa using hpath)
  · exact (not_not.mp hhash).1
  · exact (not_not.mp hhash).2
  · exact (roundOk_bounds _ (by simpa using hround)).1
  · exact (roundOk_bounds _ (by simpa using hround)).2

theorem initJoin_preserves_valid (s t : Sign) (e : Envelope) (hv : s.Valid)
    (h : s.initJoin = Except.ok (t, e)) : t.Valid := by
  obtain ⟨h1, h2, h3, h4, h5, h6, h7, h8, h9, h10, h11, h12⟩ := hv
  unfold Sign.initJoin at h
  split at h
  · exact absurd h (by simp)
  · rename_i hr
    simp only [Sign.formatMessage, Except.ok.injEq, Prod.mk.injEq] at h
    obtain ⟨hS, -⟩ := h
    subst hS
    refine ⟨h1, h2, h3, h4, h5, h6, h7, h8, h9, h10, by simp; omega, by simp; omega⟩

theorem nextRound_preserves_valid (s t : Sign) (e : Envelope) (msgs : List Envelope)
    (hv : s.Valid) (h : s.nextRound msgs = Except.ok (t, e)) : t.Valid := by
  obtain ⟨h1, h2, h3, h4, h5, h6, h7, h8, h9, h10, h11, h12⟩ := hv
  unfold Sign.nextRound at h
  split at h
  · exact absurd h (by simp)
  split at h
  · exact absurd h (by simp)
  split at h
  · exact absurd h (by simp)
  split at h
  · exact absurd h (by simp)
  split at h
  · exact absurd h (by simp)
  rename_i hr0 hr5 hlen hrounds hpids
  split at h
  · exact absurd h (by simp)
  · simp only [Sign.formatMessage, Except.ok.injEq, Prod.mk.injEq] at h
    obtain ⟨hS, -⟩ := h
    subst hS
    refine ⟨h1, h2, h3, h4, h5, h6, h7, h8, h9, h10, by simp; omega, by simp; omega⟩

theorem getSignature_preserves_valid (s t : Sign) (sig : SignatureObj) (hv : s.Valid)
    (h : s.getSignature = Except.ok (t, sig)) : t.Valid := by
  obtain ⟨h1, h2, h3, h4, h5, h6, h7, h8, h9, h10, h11, h12⟩ := hv
  unfold Sign.getSignature at h
  split at h
  · exact absurd h (by simp)
  split at h
  · rename_i sig0 hsig
    simp only [Except.ok.injEq, Prod.mk.injEq] at h
    obtain ⟨hS, -⟩ := h
    subst hS
    exact ⟨h1, h2, h3, h4, h5, h6, h7, h8, h9, h10, h11, h12⟩
  · split at h
    · exact absurd h (by simp)
    · simp only [Except.ok.injEq, Prod.mk.injEq] at h
      obtain ⟨hS, -⟩ := h
      subst hS
      exact ⟨h1, h2, h3, h4, h5, h6, h7, h8, h9, h10, h11, h12⟩

theorem restore_valid (ct : Ciphertext) (kc : Keychain) (ak : Nat) (s : Sign)
    (h : Sign.restore ct kc ak = Except.ok s) : s.Valid := by
  unfold Sign.restore at h
  split at h
  · exact absurd h (by simp)
  dsimp only at h
  repeat' split at h
  all_goals try exact absurd h (fun hh => Except.noConfusion hh)
  rename_i signer hcreate
  simp only [Except.ok.injEq] at h
  subst h
  have hv := createSign_valid _ _ hcreate
  obtain ⟨h1, h2, h3, h4, h5, h6, h7, h8, h9, h10, h11, h12⟩ := hv
  exact ⟨h1, h2, h3, h4, h5, h6, h7, h8, h9, h10, h11, h12⟩
